import Mathlib

/-!
# TreasuryManager — verification of the record-processing pipeline

Shallow embedding of `src/lib.rs` (crate `treasurymanager`): the
`TreasuryManagerProcessor`, its `process` and `get_stats` methods, the
`run` driver, `process_input_data`, and `output_results`, together with a
model of the `serde_json` value shape that the derived
`Serialize`/`Deserialize` instances of `ProcessResult` produce and consume.

Modelling conventions:
* Rust `usize` counters are `Nat` (no overflow is reachable in the spec's
  scope and the claims do not mention wraparound).
* `serde_json::Value` is the inductive `Json` below; the numbers the
  program stores (`length`, `item_number`) are natural numbers, embedded
  in `Int`-valued `Json.num`.
* Wall-clock time (`chrono::Utc::now().to_rfc3339()`) is nondeterministic
  input: it is threaded as an explicit `clock : Nat → String`, indexed by
  the number of items processed before the call.
* The filesystem is an explicit collaborator `readFile : String → Except
  String String`; the write side is modelled by returning the (path,
  serialized value) pair the program would write.
* `log`/`env_logger` output goes to a diagnostic stream, not into the data
  flow; `process` returns the debug lines it would emit so that
  noninterference of verbosity is statable, and the driver discards them
  exactly as the Rust logger does from the data path's point of view.
* Rust `Result<T, Box<dyn Error>>` is `Except String T`.
-/

/-- Model of `serde_json::Value` as far as this program can produce or
consume it (numbers restricted to integers: the program only ever stores
`usize` values). -/
inductive Json where
  | null : Json
  | bool (b : Bool) : Json
  | num (n : Int) : Json
  | str (s : String) : Json
  | arr (elems : List Json) : Json
  | obj (fields : List (String × Json)) : Json

/-- Key lookup in a JSON object's field list (first match wins, as in
`serde_json`'s map indexing for the objects this program builds, which
never contain duplicate keys). -/
def jsonLookup : List (String × Json) → String → Option Json
  | [], _ => none
  | (k, v) :: rest, key => if k = key then some v else jsonLookup rest key

/-- Rust `pub struct ProcessResult { success: bool, message: String,
data: Option<serde_json::Value> }` (src/lib.rs lines 15–23). -/
structure ProcessResult where
  success : Bool
  message : String
  data : Option Json

/-- Rust `pub struct TreasuryManagerProcessor { verbose: bool,
processed_count: usize }` (src/lib.rs lines 26–32). -/
structure TreasuryManagerProcessor where
  verbose : Bool
  processed_count : Nat

/-- Constructor `TreasuryManagerProcessor::new` (src/lib.rs lines 36–41). -/
def TreasuryManagerProcessor.new (verbose : Bool) : TreasuryManagerProcessor :=
  { verbose := verbose, processed_count := 0 }

/-- Rust `str::len()`: the UTF-8 byte length of the string (Rust strings
are UTF-8; `len` counts bytes, not characters). -/
def rustStrLen (s : String) : Nat :=
  (s.data.map Char.utf8Size).sum

/-- The `ProcessResult` value constructed in the body of
`TreasuryManagerProcessor::process` (src/lib.rs lines 60–68) when the
post-increment counter is `count` and the captured timestamp is `now`. -/
def recordOf (count : Nat) (now : String) (data : String) : ProcessResult :=
  { success := true
    message := "Successfully processed item #" ++ toString count
    data := some (Json.obj
      [("length", Json.num (rustStrLen data)),
       ("processed_at", Json.str now),
       ("item_number", Json.num count)]) }

/-- Method `TreasuryManagerProcessor::process` (src/lib.rs lines 52–71): bumps
`processed_count`, optionally emits one debug log line, and returns
`Ok(result)`. The triple is (updated processor, emitted debug log lines,
returned `Result`). -/
def TreasuryManagerProcessor.process (p : TreasuryManagerProcessor)
    (now : String) (data : String) :
    TreasuryManagerProcessor × List String × Except String ProcessResult :=
  let logLines :=
    if p.verbose then ["Processing data of length: " ++ toString (rustStrLen data)]
    else []
  let count := p.processed_count + 1
  ({ p with processed_count := count }, logLines,
   Except.ok (recordOf count now data))

/-- Method `TreasuryManagerProcessor::get_stats` (src/lib.rs lines 78–83). It
borrows the processor immutably (`&self`), so in the embedding it is a
pure function of the state: the state is unchanged by any number of calls. -/
def TreasuryManagerProcessor.get_stats (p : TreasuryManagerProcessor) : Json :=
  Json.obj
    [("processed_count", Json.num (p.processed_count : Int)),
     ("verbose", Json.bool p.verbose)]

/-- Rust `str::split_inclusive('\n')` on the character list: splits after
each newline, keeping the newline in the piece; the empty string yields no
pieces. -/
def splitIncNL : List Char → List (List Char)
  | [] => []
  | c :: cs =>
    if c = '\n' then [c] :: splitIncNL cs
    else
      match splitIncNL cs with
      | [] => [[c]]
      | p :: ps => (c :: p) :: ps

/-- The per-piece map of Rust `str::lines()`: remove one trailing `'\n'`
if present, and then one trailing `'\r'` (so a `'\r'` is stripped only as
part of an actual `"\r\n"` line ending). -/
def stripLineEnd (l : List Char) : List Char :=
  match l.getLast? with
  | some c =>
    if c = '\n' then
      let l' := l.dropLast
      match l'.getLast? with
      | some c2 => if c2 = '\r' then l'.dropLast else l'
      | none => l'
    else l
  | none => l

/-- Rust `str::lines()` as used in `process_input_data` (src/lib.rs line
135): split inclusively at `'\n'`, then strip the line terminator (`"\n"`
or `"\r\n"`) from each piece. A final line without a trailing newline is
kept; the empty string yields no lines. -/
def rustLines (s : String) : List String :=
  (splitIncNL s.data).map (fun l => String.mk (stripLineEnd l))

/-- The `for line in input_data.lines()` loop of `process_input_data`
(src/lib.rs lines 133–140): call `process` on each line in order,
propagating an error (`?`) and pushing each `Ok` record. The debug log
lines go to the logging collaborator, not the data flow, and are dropped
here as the loop drops them. -/
def processLinesLoop (p : TreasuryManagerProcessor) (clock : Nat → String) :
    List String → Except String (TreasuryManagerProcessor × List ProcessResult)
  | [] => Except.ok (p, [])
  | line :: rest =>
    match p.process (clock p.processed_count) line with
    | (p', _logLines, Except.ok r) =>
      match processLinesLoop p' clock rest with
      | Except.ok (p'', rs) => Except.ok (p'', r :: rs)
      | Except.error e => Except.error e
    | (_, _, Except.error e) => Except.error e

/-- Function `process_input_data` (src/lib.rs lines 132–141): run the loop over
`input_data.lines()`. -/
def process_input_data (p : TreasuryManagerProcessor) (clock : Nat → String)
    (input_data : String) :
    Except String (TreasuryManagerProcessor × List ProcessResult) :=
  processLinesLoop p clock (rustLines input_data)

/-- Serialization of `ProcessResult` as derived by
`#[derive(Serialize)]` (src/lib.rs line 15): an object with the struct's
fields in declaration order; an `Option` field serializes `None` as
`null` and `Some(v)` as `v`. -/
def ProcessResult.toJson (r : ProcessResult) : Json :=
  Json.obj
    [("success", Json.bool r.success),
     ("message", Json.str r.message),
     ("data", match r.data with | some v => v | none => Json.null)]

/-- Deserialization of `ProcessResult` as derived by
`#[derive(Deserialize)]` (src/lib.rs line 15): `success` must be a
boolean, `message` a string; for the `Option<serde_json::Value>` field,
a missing or `null` value gives `None` and anything else `Some`;
unknown fields are ignored. -/
def ProcessResult.fromJson : Json → Option ProcessResult
  | Json.obj fields =>
    match jsonLookup fields "success", jsonLookup fields "message" with
    | some (Json.bool b), some (Json.str m) =>
      some { success := b, message := m,
             data :=
               match jsonLookup fields "data" with
               | none => none
               | some Json.null => none
               | some v => some v }
    | _, _ => none
  | _ => none

/-- Shape note: `serde_json::to_string_pretty(&results)` serializes the vector as a
JSON array of the records' objects; this is its value shape. -/
def serializeResults (rs : List ProcessResult) : Json :=
  Json.arr (rs.map ProcessResult.toJson)

/-- Parsing the output document back into `Vec<ProcessResult>` via the
derived `Deserialize`: the value must be an array, and every element must
deserialize. -/
def deserializeResults : Json → Option (List ProcessResult)
  | Json.arr elems => elems.mapM ProcessResult.fromJson
  | _ => none

/-- Function `output_results` (src/lib.rs lines 149–157): with an output path,
serialize the collected records and write them there (returned as the
(path, document) pair); with no path, write nothing. -/
def output_results (output : Option String) (results : List ProcessResult) :
    Option (String × Json) :=
  match output with
  | some path => some (path, serializeResults results)
  | none => none

/-- The observable outcome of a successful `run`: the collected records,
the processor's final state, and the output write performed (if any).
The Rust function drops the first two at the end of the run; they are
returned here so the driver's behaviour is statable. -/
structure RunOutcome where
  results : List ProcessResult
  finalProcessor : TreasuryManagerProcessor
  written : Option (String × Json)

/-- The driver `run` (src/lib.rs lines 87–120): construct a processor, resolve the
input text (read the file if a path is given — propagating a read error
with `?` — or use the empty string), process the lines, and dispatch the
output. Logging initialization and `info!` lines are external
collaborators with no effect on the data flow. -/
def run (verbose : Bool) (input : Option String) (output : Option String)
    (readFile : String → Except String String) (clock : Nat → String) :
    Except String RunOutcome :=
  let processor := TreasuryManagerProcessor.new verbose
  match (match input with
         | some path => readFile path
         | none => Except.ok "") with
  | Except.error e => Except.error e
  | Except.ok input_data =>
    match process_input_data processor clock input_data with
    | Except.error e => Except.error e
    | Except.ok (processor, results) =>
      Except.ok { results := results, finalProcessor := processor,
                  written := output_results output results }

/-- Projection used by the spec's field-level statements: the `data`
mapping's entry at `key`, when `data` is present and an object. -/
def dataLookup (r : ProcessResult) (key : String) : Option Json :=
  match r.data with
  | some (Json.obj fields) => jsonLookup fields key
  | _ => none

/-- The record sequence the loop produces when started at counter value
`c`: the i-th line (0-based) becomes the record with item number
`c + i + 1`, stamped with `clock (c + i)`. -/
def expectedRecords (clock : Nat → String) (c : Nat) : List String → List ProcessResult
  | [] => []
  | l :: ls => recordOf (c + 1) (clock c) l :: expectedRecords clock (c + 1) ls

/-- The record a round trip through the derived
serialize/deserialize pair reconstructs: identical except that a literal
`Some(Value::Null)` in `data` collapses to `None` (serde serializes both
as `null`). -/
def normRecord (r : ProcessResult) : ProcessResult :=
  { r with data := match r.data with
                   | some Json.null => none
                   | d => d }

theorem processLinesLoop_eq (clock : Nat → String) :
    ∀ (lines : List String) (v : Bool) (c : Nat),
    processLinesLoop ⟨v, c⟩ clock lines =
      Except.ok (⟨v, c + lines.length⟩, expectedRecords clock c lines) := by
  intro lines
  induction lines with
  | nil => intro v c; simp [processLinesLoop, expectedRecords]
  | cons l ls ih =>
    intro v c
    simp [processLinesLoop, TreasuryManagerProcessor.process, expectedRecords, ih v (c + 1)]
    omega

theorem length_expectedRecords (clock : Nat → String) :
    ∀ (ls : List String) (c : Nat), (expectedRecords clock c ls).length = ls.length := by
  intro ls
  induction ls with
  | nil => intro c; rfl
  | cons l ls ih => intro c; simp [expectedRecords, ih]

theorem dataLookup_recordOf_item (n : Nat) (now l : String) :
    dataLookup (recordOf n now l) "item_number" = some (Json.num (n : Int)) := rfl

theorem dataLookup_recordOf_length (n : Nat) (now l : String) :
    dataLookup (recordOf n now l) "length" = some (Json.num ((rustStrLen l : Nat) : Int)) := rfl

theorem map_item_expectedRecords (clock : Nat → String) :
    ∀ (ls : List String) (c : Nat),
    (expectedRecords clock c ls).map (fun r => dataLookup r "item_number") =
      (List.range ls.length).map (fun i => some (Json.num ((c + i + 1 : Nat) : Int))) := by
  intro ls
  induction ls with
  | nil => intro c; rfl
  | cons l ls ih =>
    intro c
    simp only [expectedRecords, List.map_cons, dataLookup_recordOf_item,
      List.length_cons, List.range_succ_eq_map, List.map_map, ih (c + 1)]
    rw [List.cons_eq_cons]
    refine ⟨by norm_num, ?_⟩
    simp only [List.map_inj_left, Function.comp_apply, Option.some.injEq,
      Json.num.injEq, List.mem_range]
    intro a ha
    omega

theorem map_length_expectedRecords (clock : Nat → String) :
    ∀ (ls : List String) (c : Nat),
    (expectedRecords clock c ls).map (fun r => dataLookup r "length") =
      ls.map (fun l => some (Json.num ((rustStrLen l : Nat) : Int))) := by
  intro ls
  induction ls with
  | nil => intro c; rfl
  | cons l ls ih =>
    intro c
    simp [expectedRecords, dataLookup_recordOf_length, ih (c + 1)]

theorem fromJson_toJson (r : ProcessResult) :
    ProcessResult.fromJson r.toJson = some (normRecord r) := by
  cases r with
  | mk s m d =>
    cases d with
    | none => rfl
    | some v => cases v <;> rfl

theorem deserialize_serialize (rs : List ProcessResult) :
    deserializeResults (serializeResults rs) = some (rs.map normRecord) := by
  induction rs with
  | nil => rfl
  | cons r rs ih =>
    simp only [serializeResults, deserializeResults, List.map_cons, List.mapM_cons,
      fromJson_toJson, Option.pure_def, Option.bind_eq_bind, Option.some_bind]
    simp only [serializeResults, deserializeResults] at ih
    rw [ih]
    rfl

theorem normRecord_success (r : ProcessResult) : (normRecord r).success = r.success := rfl

theorem normRecord_message (r : ProcessResult) : (normRecord r).message = r.message := rfl

theorem dataLookup_normRecord (r : ProcessResult) (key : String) :
    dataLookup (normRecord r) key = dataLookup r key := by
  cases r with
  | mk s m d =>
    cases d with
    | none => rfl
    | some v => cases v <;> rfl

theorem splitIncNL_ne_nil (l : List Char) (h : l ≠ []) : splitIncNL l ≠ [] := by
  cases l with
  | nil => exact absurd rfl h
  | cons c cs =>
    simp only [splitIncNL]
    split
    · simp
    · split <;> simp

theorem splitIncNL_append_nl (xs ys : List Char) :
    splitIncNL (xs ++ '\n' :: ys) = splitIncNL (xs ++ ['\n']) ++ splitIncNL ys := by
  induction xs with
  | nil => simp [splitIncNL]
  | cons c cs ih =>
    simp only [List.cons_append, splitIncNL, List.append_eq]
    split
    · rw [ih]; rfl
    · rw [ih]
      have hne : splitIncNL (cs ++ ['\n']) ≠ [] := splitIncNL_ne_nil _ (by simp)
      cases hsp : splitIncNL (cs ++ ['\n']) with
      | nil => exact absurd hsp hne
      | cons p ps => simp

theorem splitIncNL_no_nl (l : List Char) (hne : l ≠ []) (hnl : '\n' ∉ l) :
    splitIncNL l = [l] := by
  induction l with
  | nil => exact absurd rfl hne
  | cons c cs ih =>
    have hcnl : c ≠ '\n' := fun h => hnl (h ▸ List.mem_cons_self c cs)
    simp only [splitIncNL, if_neg hcnl]
    cases hcs : cs with
    | nil => simp [splitIncNL]
    | cons d ds =>
      have : splitIncNL cs = [cs] := by
        apply ih (by simp [hcs]) (fun h => hnl (List.mem_cons_of_mem c h))
      rw [hcs] at this
      rw [this]

theorem stripLineEnd_no_nl (l : List Char) (hnl : '\n' ∉ l) : stripLineEnd l = l := by
  unfold stripLineEnd
  cases hlast : l.getLast? with
  | none => rfl
  | some c =>
    have hc : c ∈ l := by
      obtain ⟨ys, rfl⟩ := List.getLast?_eq_some_iff.mp hlast
      simp
    have : c ≠ '\n' := fun h => hnl (h ▸ hc)
    simp [this]

theorem two_le_utf8Size (c : Char) (h : 128 ≤ c.toNat) : 2 ≤ c.utf8Size := by
  have h127 : ¬ c.val ≤ UInt32.ofNatCore 0x7F (by decide) := by
    intro hle
    have h1 : c.val.toBitVec ≤ (UInt32.ofNatCore 0x7F (by decide)).toBitVec :=
      UInt32.le_def.mp hle
    have h2 : c.val.toNat ≤ 127 := by
      have := BitVec.le_def.mp h1
      simpa using this
    have h' : c.toNat = c.val.toNat := rfl
    omega
  unfold Char.utf8Size
  rw [if_neg h127]
  split
  · omega
  · split <;> omega

theorem length_le_utf8Len (l : List Char) : l.length ≤ (l.map Char.utf8Size).sum := by
  induction l with
  | nil => simp
  | cons c cs ih =>
    have := Char.utf8Size_pos c
    simp only [List.length_cons, List.map_cons, List.sum_cons]
    omega

theorem length_lt_utf8Len (l : List Char) (c : Char) (hc : c ∈ l) (h2 : 2 ≤ c.utf8Size) :
    l.length < (l.map Char.utf8Size).sum := by
  induction l with
  | nil => exact absurd hc (List.not_mem_nil c)
  | cons a as ih =>
    simp only [List.length_cons, List.map_cons, List.sum_cons]
    rcases List.mem_cons.mp hc with heq | hmem
    · have := length_le_utf8Len as
      subst heq
      omega
    · have := ih hmem
      have := Char.utf8Size_pos a
      omega

/-- C1: for every input text, running the pipeline (`process_input_data`
over the lines) produces exactly one `ResultRecord` per line, in
input-line order, whose `data.item_number` values are exactly `1..L`. -/
theorem pipeline_record_count_and_item_numbers (v : Bool) (clock : Nat → String)
    (input : String) :
    ∃ p' rs,
      process_input_data (TreasuryManagerProcessor.new v) clock input =
        Except.ok (p', rs) ∧
      rs.length = (rustLines input).length ∧
      rs.map (fun r => dataLookup r "item_number") =
        (List.range (rustLines input).length).map
          (fun i => some (Json.num ((i + 1 : Nat) : Int))) ∧
      rs.map (fun r => dataLookup r "length") =
        (rustLines input).map (fun l => some (Json.num ((rustStrLen l : Nat) : Int))) := by
  refine ⟨_, _, processLinesLoop_eq clock (rustLines input) v 0, ?_, ?_, ?_⟩
  · exact length_expectedRecords clock (rustLines input) 0
  · have h := map_item_expectedRecords clock (rustLines input) 0
    simpa using h
  · exact map_length_expectedRecords clock (rustLines input) 0

/-- C2: `processed_count` is 0 after construction, every `process` call
increments it by exactly 1 regardless of the input line, and the record's
`item_number` is the post-increment counter, so it increases by 1 per
call starting at 1 within one instance. -/
theorem processed_count_increment_invariant :
    (∀ v : Bool, (TreasuryManagerProcessor.new v).processed_count = 0) ∧
    (∀ (p : TreasuryManagerProcessor) (now line : String),
      (p.process now line).1.processed_count = p.processed_count + 1) ∧
    (∀ (p : TreasuryManagerProcessor) (now line : String),
      ∃ r, (p.process now line).2.2 = Except.ok r ∧
        dataLookup r "item_number" = some (Json.num ((p.processed_count + 1 : Nat) : Int))) :=
  ⟨fun _ => rfl, fun _ _ _ => rfl,
   fun p now line => ⟨recordOf (p.processed_count + 1) now line, rfl, rfl⟩⟩

/-- C3: `process` never returns an error: for every state and line it
returns `Ok` of a record with `success = true`, message
`"Successfully processed item #N"` for the post-increment counter `N`,
and `data.item_number = N`. -/
theorem process_never_fails (p : TreasuryManagerProcessor) (now line : String) :
    ∃ r, (p.process now line).2.2 = Except.ok r ∧
      r.success = true ∧
      r.message = "Successfully processed item #" ++ toString (p.processed_count + 1) ∧
      dataLookup r "item_number" =
        some (Json.num ((p.processed_count + 1 : Nat) : Int)) :=
  ⟨recordOf (p.processed_count + 1) now line, rfl, rfl, rfl, rfl⟩

/-- C4: `data.length` equals the length of the processed line exactly
(0 for the empty line), and the input `"alpha\nbeta\ngamma"` with no
trailing newline yields 3 records with item numbers 1, 2, 3 and lengths
5, 4, 5. -/
theorem record_length_field :
    (∀ (p : TreasuryManagerProcessor) (now line : String),
      ∃ r, (p.process now line).2.2 = Except.ok r ∧
        dataLookup r "length" = some (Json.num ((rustStrLen line : Nat) : Int))) ∧
    rustStrLen "" = 0 ∧
    (∀ (v : Bool) (clock : Nat → String),
      ∃ p' rs,
        process_input_data (TreasuryManagerProcessor.new v) clock "alpha\nbeta\ngamma" =
          Except.ok (p', rs) ∧
        rs.map (fun r => dataLookup r "item_number") =
          [some (Json.num 1), some (Json.num 2), some (Json.num 3)] ∧
        rs.map (fun r => dataLookup r "length") =
          [some (Json.num 5), some (Json.num 4), some (Json.num 5)]) := by
  refine ⟨?_, rfl, ?_⟩
  · intro p now line
    exact ⟨recordOf (p.processed_count + 1) now line, rfl, rfl⟩
  · intro v clock
    have hlines : rustLines "alpha\nbeta\ngamma" = ["alpha", "beta", "gamma"] := by decide
    refine ⟨⟨v, 3⟩, expectedRecords clock 0 ["alpha", "beta", "gamma"], ?_, rfl, rfl⟩
    show processLinesLoop (TreasuryManagerProcessor.new v) clock
      (rustLines "alpha\nbeta\ngamma") = _
    rw [hlines]
    exact processLinesLoop_eq clock ["alpha", "beta", "gamma"] v 0

/-- C5: line splitting follows the newline-delimited convention — the
empty text yields zero lines, a final line without a trailing newline is
still included (the material after the last newline forms one line), and
a run with no input path processes zero records, leaves
`processed_count` at 0, and returns success. -/
theorem line_splitting_convention :
    rustLines "" = [] ∧
    (∀ t s : String, s ≠ "" → '\n' ∉ s.data →
      rustLines (t.push '\n' ++ s) = rustLines (t.push '\n') ++ [s]) ∧
    (∀ (v : Bool) (out : Option String) (readFile : String → Except String String)
      (clock : Nat → String),
      run v none out readFile clock =
        Except.ok ⟨[], TreasuryManagerProcessor.new v, output_results out []⟩ ∧
      (TreasuryManagerProcessor.new v).processed_count = 0) := by
  refine ⟨rfl, ?_, ?_⟩
  · intro t s hne hnl
    have hsne : s.data ≠ [] := by
      intro h
      apply hne
      cases s with
      | mk l =>
        simp only [String.data] at h
        subst h
        rfl
    have hdata : (t.push '\n' ++ s).data = t.data ++ '\n' :: s.data := by
      rw [String.data_append, String.data_push, List.append_assoc]
      rfl
    have h2 : List.map (fun l => String.mk (stripLineEnd l)) [s.data] = [s] := by
      simp only [List.map_cons, List.map_nil, stripLineEnd_no_nl s.data hnl]
    unfold rustLines
    rw [hdata, splitIncNL_append_nl, splitIncNL_no_nl s.data hsne hnl, List.map_append,
      String.data_push, h2]
  · intro v out readFile clock
    exact ⟨rfl, rfl⟩

/-- Concrete check of C5's conditional part: appending the final line
`"cd"` after `"ab\n"` adds exactly one line. -/
theorem line_splitting_convention_check :
    rustLines (String.push "ab" '\n' ++ "cd") =
      rustLines (String.push "ab" '\n') ++ ["cd"] :=
  line_splitting_convention.2.1 "ab" "cd" (by decide) (by decide)

/-- C6: if an input path is given and reading it fails, `run` returns
that read error: no record is processed, no output is dispatched, and no
state survives (the error is the entire outcome). -/
theorem input_read_error_aborts_run (v : Bool) (path : String) (out : Option String)
    (readFile : String → Except String String) (clock : Nat → String) (e : String)
    (h : readFile path = Except.error e) :
    run v (some path) out readFile clock = Except.error e := by
  simp [run, h]

/-- Concrete check of C6: a failing read on `"missing.txt"` makes the
whole run fail with that error. -/
theorem input_read_error_aborts_run_check :
    run false (some "missing.txt") none (fun _ => Except.error "io error")
      (fun _ => "") = Except.error "io error" :=
  input_read_error_aborts_run false "missing.txt" none
    (fun _ => Except.error "io error") (fun _ => "") "io error" rfl

/-- C7: serializing any collected sequence of records to the output
document and parsing it back yields records with identical `success`,
`message`, `data.length` and `data.item_number` fields. -/
theorem output_roundtrip_preserves_fields (rs : List ProcessResult) :
    ∃ rs', deserializeResults (serializeResults rs) = some rs' ∧
      rs'.map ProcessResult.success = rs.map ProcessResult.success ∧
      rs'.map ProcessResult.message = rs.map ProcessResult.message ∧
      rs'.map (fun r => dataLookup r "length") =
        rs.map (fun r => dataLookup r "length") ∧
      rs'.map (fun r => dataLookup r "item_number") =
        rs.map (fun r => dataLookup r "item_number") := by
  refine ⟨rs.map normRecord, deserialize_serialize rs, ?_, ?_, ?_, ?_⟩
  all_goals
    rw [List.map_map]
    apply List.map_congr_left
    intro r _
    first
      | exact normRecord_success r
      | exact normRecord_message r
      | exact dataLookup_normRecord r "length"
      | exact dataLookup_normRecord r "item_number"

/-- C8: `get_stats` returns an object carrying the current
`processed_count` and the `verbose` value fixed at construction; it is a
pure function of the state (so any number of calls leaves the processor
unchanged), and no operation ever modifies `verbose`. -/
theorem get_stats_frame :
    (∀ p : TreasuryManagerProcessor, ∃ fields,
      p.get_stats = Json.obj fields ∧
      jsonLookup fields "processed_count" =
        some (Json.num ((p.processed_count : Nat) : Int)) ∧
      jsonLookup fields "verbose" = some (Json.bool p.verbose)) ∧
    (∀ v : Bool, (TreasuryManagerProcessor.new v).verbose = v) ∧
    (∀ (p : TreasuryManagerProcessor) (now line : String),
      (p.process now line).1.verbose = p.verbose) :=
  ⟨fun p =>
    ⟨[("processed_count", Json.num ((p.processed_count : Nat) : Int)),
      ("verbose", Json.bool p.verbose)], rfl, rfl, rfl⟩,
   fun _ => rfl, fun _ _ _ => rfl⟩

/-- C9: two processors that differ only in the `verbose` flag return the
same `Result` and the same `processed_count` from `process` on any line:
verbosity influences only the emitted log lines. -/
theorem verbosity_noninterference (vA vB : Bool) (c : Nat) (now line : String) :
    ((TreasuryManagerProcessor.mk vA c).process now line).2.2 =
      ((TreasuryManagerProcessor.mk vB c).process now line).2.2 ∧
    ((TreasuryManagerProcessor.mk vA c).process now line).1.processed_count =
      ((TreasuryManagerProcessor.mk vB c).process now line).1.processed_count :=
  ⟨rfl, rfl⟩

/-- C10: the reported `data.length` is the UTF-8 byte count of the line
(Rust `str::len`), so a line containing a non-ASCII character has
`data.length` strictly greater than its character count. -/
theorem length_is_utf8_byte_count (p : TreasuryManagerProcessor) (now line : String)
    (c : Char) (hc : c ∈ line.data) (h : 128 ≤ c.toNat) :
    ∃ r, (p.process now line).2.2 = Except.ok r ∧
      dataLookup r "length" = some (Json.num ((rustStrLen line : Nat) : Int)) ∧
      line.data.length < rustStrLen line :=
  ⟨recordOf (p.processed_count + 1) now line, rfl, rfl,
   length_lt_utf8Len line.data c hc (two_le_utf8Size c h)⟩

/-- Concrete check of C10 on the line `"café"`: 4 characters, byte
length 5. -/
theorem length_is_utf8_byte_count_check :
    ∃ r, ((TreasuryManagerProcessor.new false).process "ts" "café").2.2 = Except.ok r ∧
      dataLookup r "length" = some (Json.num ((rustStrLen "café" : Nat) : Int)) ∧
      ("café" : String).data.length < rustStrLen "café" :=
  length_is_utf8_byte_count (TreasuryManagerProcessor.new false) "ts" "café" 'é'
    (by decide) (by decide)
